import Mathlib

/-!
Verification of the caption compositor and generation client implemented in
`src/src/App.js` of the Hey Picture image-generator app.

The development shallowly embeds the relevant JavaScript:
text widths returned by `ctx.measureText` are an arbitrary function
`String → ℚ` (the wrapping algorithm is verified against any metrics, as the
renderer's metrics are engine specific), JavaScript numbers are idealised as
`ℚ`, and asynchronous image decode/encode results are passed in explicitly.
-/

namespace HeyPicture

/-- Model of JavaScript `String.prototype.trim`: removes leading and trailing
whitespace characters.  Written over the character list so that it evaluates
by kernel reduction. -/
def jsTrim (s : String) : String :=
  String.mk (((s.data.dropWhile Char.isWhitespace).reverse.dropWhile
    Char.isWhitespace).reverse)

/-- Character-level model of JavaScript `text.split(' ')` (App.js line 152):
the list is split at every single space character, keeping empty segments
that arise from leading, trailing or consecutive spaces. -/
def splitSpL : List Char → List (List Char)
  | [] => [[]]
  | c :: cs =>
    if c = ' ' then [] :: splitSpL cs
    else
      match splitSpL cs with
      | [] => [[c]]
      | t :: ts => (c :: t) :: ts

/-- String-level `text.split(' ')` of App.js line 152. -/
def splitSp (s : String) : List String :=
  (splitSpL s.data).map (fun l => String.mk l)

/-- Greedy wrap loop of App.js lines 156-166.  `line` is the in-progress
line, `n` the index of the candidate word; the prospective line
`line + words[n] + ' '` is measured, and the current line is closed exactly
when that width exceeds `maxWidth` and `n > 0`.  The base case is the final
`lines.push(line)` of line 167. -/
def wrapLoop (measure : String → ℚ) (maxWidth : ℚ) :
    List String → ℕ → String → List String
  | [], _, line => [line]
  | w :: ws, n, line =>
    if measure (line ++ w ++ " ") > maxWidth ∧ 0 < n then
      line :: wrapLoop measure maxWidth ws (n + 1) (w ++ " ")
    else
      wrapLoop measure maxWidth ws (n + 1) (line ++ w ++ " ")

/-- Lines produced for a caption by App.js lines 151-167, for a given text
measure and width budget (the caller passes `0.8 * canvas.width`). -/
def wrapLines (measure : String → ℚ) (maxWidth : ℚ) (text : String) :
    List String :=
  wrapLoop measure maxWidth (splitSp text) 0 ""

/-- Whitespace-split word list of a character list (used to state the
spec-level properties about "whitespace-split words"): maximal runs of
non-whitespace characters, with `acc` the reversed current run. -/
def wsWordsAux : List Char → List Char → List (List Char)
  | [], acc => if acc = [] then [] else [acc.reverse]
  | c :: cs, acc =>
    if c.isWhitespace then
      if acc = [] then wsWordsAux cs [] else acc.reverse :: wsWordsAux cs []
    else
      wsWordsAux cs (c :: acc)

/-- Whitespace-split word sequence of a string (empty words dropped). -/
def wsWords (s : String) : List String :=
  (wsWordsAux s.data []).map (fun l => String.mk l)

/-- Concatenation of a list of lines back into one string. -/
def concatLines : List String → String
  | [] => ""
  | l :: ls => l ++ concatLines ls

/-- Font size chosen on App.js line 141: `Math.max(20, img.width / 20)`,
with the width `W` in pixels (an `HTMLImageElement.width` is an unsigned
integer) and the result an idealised JavaScript number. -/
def fontSizeQ (W : ℕ) : ℚ := max 20 ((W : ℚ) / 20)

/-- Font size read back on App.js line 170 as `parseInt(ctx.font)`.  The
canvas font was assigned the string `"<fontSize>px Inter, sans-serif"`, so
`parseInt` consumes the leading digits of the decimal rendering of the font
size and stops at the decimal point or at `p`: since the font size is at
least 20 (positive), this is its integer part, i.e. its floor. -/
def fontPx (W : ℕ) : ℤ := ⌊fontSizeQ W⌋

/-- Line height of App.js line 170: `parseInt(ctx.font) * 1.2`. -/
def lineHeightQ (W : ℕ) : ℚ := (fontPx W : ℚ) * (6 / 5)

/-- Drawing loop of App.js lines 173-176: each line is trimmed and drawn at
the current `y`, and `y` advances by `lineHeight` after every line.  The
result records, in order, the drawn text and its `y` coordinate (the
`x` coordinate is the constant `canvas.width / 2` and is omitted). -/
def drawLoop (lineHeight : ℚ) : List String → ℚ → List (String × ℚ)
  | [], _ => []
  | l :: ls, y => (jsTrim l, y) :: drawLoop lineHeight ls (y + lineHeight)

/-- Draw calls issued by App.js lines 171-176: the starting `y` is
`canvas.height / 2 - (lines.length - 1) * lineHeight / 2`. -/
def drawLines (H lineHeight : ℚ) (lines : List String) :
    List (String × ℚ) :=
  drawLoop lineHeight lines
    (H / 2 - ((lines.length : ℚ) - 1) * lineHeight / 2)

/-- Pixel dimensions obtained from a successfully decoded image. -/
structure DecodedImage where
  width : ℕ
  height : ℕ
deriving DecidableEq

/-- Compositor of App.js lines 125-186.  The asynchronous decode outcome of
`imageUrl` is passed in as `decoded` (`none` models the `img.onerror` path),
and `encode` stands for drawing onto the canvas plus `canvas.toDataURL`,
consuming the image and the ordered draw calls.  On decode success the
caption is wrapped against the budget `0.8 * width` (line 151) and drawn;
on decode failure the original `imageUrl` is returned (lines 181-184). -/
def overlayTextOnImage (measure : String → ℚ)
    (encode : DecodedImage → List (String × ℚ) → String)
    (decoded : Option DecodedImage) (imageUrl : String) (text : String) :
    String :=
  match decoded with
  | some img =>
      encode img (drawLines (img.height : ℚ) (lineHeightQ img.width)
        (wrapLines measure ((img.width : ℚ) * (8 / 10)) text))
  | none => imageUrl

/-- One entry of the service's `predictions` array: it optionally carries a
base64 image payload under `bytesBase64Encoded` (App.js line 102). -/
structure Prediction where
  bytesBase64Encoded : Option String
deriving DecidableEq

/-- Data URL built for a payload on App.js line 103. -/
def dataUrlOf (b : String) : String := "data:image/png;base64," ++ b

/-- Per-prediction handling of App.js lines 101-110: an entry without a
payload maps to `null` (`none`); an entry with a payload becomes its data
URL, piped through the compositor (`overlay`) exactly when the custom text
is nonempty after trimming. -/
def handlePrediction (overlay : String → String) (customText : String)
    (p : Prediction) : Option String :=
  match p.bytesBase64Encoded with
  | some b =>
      if jsTrim customText ≠ "" then some (overlay (dataUrlOf b))
      else some (dataUrlOf b)
  | none => none

/-- Model of `imagesWithText.filter(Boolean)` (App.js line 112) on an array
of strings-or-null: drops `null` entries and falsy (empty) strings. -/
def jsFilterBoolean (l : List (Option String)) : List String :=
  l.filterMap (fun o =>
    match o with
    | some s => if s = "" then none else some s
    | none => none)

/-- Output images computed from the parsed predictions by App.js
lines 100-112. -/
def processPredictions (overlay : String → String) (customText : String)
    (preds : List Prediction) : List String :=
  jsFilterBoolean (preds.map (handlePrediction overlay customText))

/-- Outcome of handling a parsed generation response: either the gallery of
images handed to `setGeneratedImages`, or the message handed to `setError`
(the persistent error banner). -/
inductive Outcome where
  | images (imgs : List String)
  | errorBanner (msg : String)
deriving DecidableEq

/-- Response handling of App.js lines 99-115: a missing or empty
`predictions` array raises the error banner, otherwise the predictions are
processed into the displayed images. -/
def handleResponse (overlay : String → String) (customText : String)
    (predictions : Option (List Prediction)) : Outcome :=
  match predictions with
  | some preds =>
      if preds.length > 0 then
        Outcome.images (processPredictions overlay customText preds)
      else
        Outcome.errorBanner
          "No images were generated. Please try a different prompt."
  | none =>
      Outcome.errorBanner
        "No images were generated. Please try a different prompt."

/-- First action taken by `generateImages`: either a dismissible validation
notice (`setMessage`, the modal), the error banner (`setError`), or the
network request. -/
inductive GenAction where
  | validationNotice (msg : String)
  | errorBanner (msg : String)
  | sendRequest (url : String) (prompt : String)
deriving DecidableEq

/-- Validation guard of App.js lines 64-90: with an empty trimmed prompt or
an empty trimmed API key, a validation notice is shown and the function
returns before any network activity; otherwise the POST request is
issued. -/
def generateImagesGuard (prompt apiKey : String) : GenAction :=
  if jsTrim prompt = "" then
    GenAction.validationNotice "Please enter a prompt to generate images."
  else if jsTrim apiKey = "" then
    GenAction.validationNotice
      "Please enter your Gemini API Key to generate images."
  else
    GenAction.sendRequest
      ("https://generativelanguage.googleapis.com/v1beta/models/imagen-3.0-generate-002:predict?key="
        ++ apiKey) prompt

/-- Modelled from the claim's words (C1), for comparison with the source's
`wrapLines`: the caption is split into its whitespace-split words, and the
current line is closed exactly when the prospective line overflows the
budget and the current line already holds at least one word (the words
being nonempty, this is `line ≠ ""`). -/
def wrapLoopSpec (measure : String → ℚ) (maxWidth : ℚ) :
    List String → String → List String
  | [], line => [line]
  | w :: ws, line =>
    if measure (line ++ w ++ " ") > maxWidth ∧ line ≠ "" then
      line :: wrapLoopSpec measure maxWidth ws (w ++ " ")
    else
      wrapLoopSpec measure maxWidth ws (line ++ w ++ " ")

/-- Claim-side wrap (C1): greedy wrap over the whitespace-split words. -/
def wrapLinesSpec (measure : String → ℚ) (maxWidth : ℚ) (text : String) :
    List String :=
  wrapLoopSpec measure maxWidth (wsWords text) ""

/-- One step of the wrap loop, as a fold over the token list: the state is
the closed lines, the in-progress line, and the index of the next token. -/
def wrapStep (measure : String → ℚ) (maxWidth : ℚ)
    (st : List String × String × ℕ) (w : String) :
    List String × String × ℕ :=
  if measure (st.2.1 ++ w ++ " ") > maxWidth ∧ 0 < st.2.2 then
    (st.1 ++ [st.2.1], w ++ " ", st.2.2 + 1)
  else
    (st.1, st.2.1 ++ w ++ " ", st.2.2 + 1)

/-- Wrap of the caption expressed as a left fold of `wrapStep` over the
space-split tokens, emitting the in-progress line at the end. -/
def wrapLinesFold (measure : String → ℚ) (maxWidth : ℚ) (text : String) :
    List String :=
  let st := (splitSp text).foldl (wrapStep measure maxWidth) ([], "", 0)
  st.1 ++ [st.2.1]

theorem strExt {a b : String} (h : a.data = b.data) : a = b := by
  cases a
  cases b
  exact congrArg String.mk h

theorem data_append (a b : String) : (a ++ b).data = a.data ++ b.data := rfl

theorem splitSpL_ne_nil (l : List Char) : splitSpL l ≠ [] := by
  cases l with
  | nil => simp [splitSpL]
  | cons c cs =>
    rw [splitSpL]
    split
    · simp
    · split <;> simp

theorem splitSp_ne_nil (s : String) : splitSp s ≠ [] := by
  simpa [splitSp] using splitSpL_ne_nil s.data

theorem flatten_splitSpL (l : List Char) :
    ((splitSpL l).map (fun t => t ++ [' '])).flatten = l ++ [' '] := by
  induction l with
  | nil => simp [splitSpL]
  | cons c cs ih =>
    rw [splitSpL]
    split
    · next h => simp [h, ih]
    · next h =>
      rcases hcs : splitSpL cs with _ | ⟨t, ts⟩
      · exact absurd hcs (splitSpL_ne_nil cs)
      · rw [hcs] at ih
        simp only [List.map_cons, List.flatten_cons, List.cons_append,
          List.append_assoc, List.nil_append] at ih ⊢
        simp [ih]

theorem concatLines_data (ls : List String) :
    (concatLines ls).data = (ls.map String.data).flatten := by
  induction ls with
  | nil => rfl
  | cons l ls ih => simp [concatLines, data_append, ih]

theorem concatLines_splitSp_map (s : String) :
    concatLines ((splitSp s).map (fun w => w ++ " ")) = s ++ " " := by
  apply strExt
  rw [concatLines_data, data_append]
  simp only [splitSp, List.map_map]
  have hfun : (String.data ∘ (fun w => w ++ " ") ∘ fun l => String.mk l)
      = fun t => t ++ [' '] := by
    funext t
    rfl
  rw [hfun, flatten_splitSpL]

theorem concatLines_wrapLoop (m : String → ℚ) (mw : ℚ) (ws : List String)
    (n : ℕ) (line : String) :
    concatLines (wrapLoop m mw ws n line)
      = line ++ concatLines (ws.map (fun w => w ++ " ")) := by
  induction ws generalizing n line with
  | nil => simp [wrapLoop, concatLines, String.append_empty]
  | cons w ws ih =>
    rw [wrapLoop]
    split
    · simp [concatLines, ih, String.append_assoc]
    · simp [concatLines, ih, String.append_assoc]

theorem concatLines_wrapLines (m : String → ℚ) (mw : ℚ) (text : String) :
    concatLines (wrapLines m mw text) = text ++ " " := by
  rw [wrapLines, concatLines_wrapLoop, String.empty_append,
    concatLines_splitSp_map]

theorem wsWordsAux_append_space (l : List Char) :
    ∀ acc, wsWordsAux (l ++ [' ']) acc = wsWordsAux l acc := by
  have hsp : (' ').isWhitespace = true := by decide
  induction l with
  | nil =>
    intro acc
    by_cases h : acc = [] <;> simp [wsWordsAux, hsp, h]
  | cons c cs ih =>
    intro acc
    rw [List.cons_append, wsWordsAux, wsWordsAux]
    by_cases hw : c.isWhitespace <;> by_cases ha : acc = [] <;>
      simp [hw, ha, ih]

theorem wsWords_append_space (s : String) : wsWords (s ++ " ") = wsWords s := by
  have h2 : (" ").data = [' '] := by decide
  rw [wsWords, wsWords, data_append, h2, wsWordsAux_append_space]

/-- C2: for every text measure, width budget and caption, the
whitespace-split word sequence of the concatenation of all lines produced by
the greedy wrap equals the caption's own whitespace-split word sequence: no
word is dropped, reordered, or duplicated. -/
theorem wrap_reconstructs_words (m : String → ℚ) (mw : ℚ) (text : String) :
    wsWords (concatLines (wrapLines m mw text)) = wsWords text := by
  rw [concatLines_wrapLines, wsWords_append_space]

theorem wrapLoop_overflow (m : String → ℚ) (mw : ℚ) (toks : List String) :
    ∀ (ws : List String) (n : ℕ) (line : String),
      (∀ w ∈ ws, w ∈ toks) →
      (n = 0 → line = "" ∧ ws ≠ []) →
      (n ≠ 0 → (∃ w ∈ toks, line = w ++ " ") ∨ m line ≤ mw) →
      ∀ l ∈ wrapLoop m mw ws n line, mw < m l → ∃ w ∈ toks, l = w ++ " " := by
  intro ws
  induction ws with
  | nil =>
    intro n line _ h0 h1 l hl hlt
    rw [wrapLoop] at hl
    simp only [List.mem_singleton] at hl
    subst hl
    rcases Nat.eq_zero_or_pos n with hn | hn
    · exact absurd rfl (h0 hn).2
    · rcases h1 (Nat.pos_iff_ne_zero.mp hn) with h | h
      · exact h
      · exact absurd hlt (not_lt.mpr h)
  | cons w ws ih =>
    intro n line hsub h0 h1 l hl hlt
    rw [wrapLoop] at hl
    by_cases hc : m (line ++ w ++ " ") > mw ∧ 0 < n
    · rw [if_pos hc] at hl
      rcases List.mem_cons.mp hl with rfl | hl'
      · rcases h1 (Nat.pos_iff_ne_zero.mp hc.2) with h | h
        · exact h
        · exact absurd hlt (not_lt.mpr h)
      · refine ih (n + 1) (w ++ " ")
          (fun x hx => hsub x (List.mem_cons_of_mem w hx))
          (fun hz => absurd hz (Nat.succ_ne_zero n)) ?_ l hl' hlt
        intro _
        exact Or.inl ⟨w, hsub w (List.mem_cons_self w ws), rfl⟩
    · rw [if_neg hc] at hl
      refine ih (n + 1) (line ++ w ++ " ")
        (fun x hx => hsub x (List.mem_cons_of_mem w hx))
        (fun hz => absurd hz (Nat.succ_ne_zero n)) ?_ l hl hlt
      intro _
      rcases Nat.eq_zero_or_pos n with hn | hn
      · obtain ⟨hline, -⟩ := h0 hn
        subst hline
        exact Or.inl ⟨w, hsub w (List.mem_cons_self w ws),
          by rw [String.empty_append]⟩
      · right
        have hng : ¬ m (line ++ w ++ " ") > mw := fun hA => hc ⟨hA, hn⟩
        exact not_lt.mp hng

/-- C3 (amended): every line the wrap produces whose measured width (the
line carries its trailing space) exceeds the budget 0.8·W consists of a
single space-split token of the caption followed by the trailing space; in
particular a line holding two or more tokens never overflows the budget,
and an oversized word is placed alone on its own line, never split. -/
theorem wrapLines_overflow_single_token (m : String → ℚ) (W : ℕ)
    (text : String) (l : String)
    (hl : l ∈ wrapLines m ((W : ℚ) * (8 / 10)) text)
    (hlt : (W : ℚ) * (8 / 10) < m l) :
    ∃ w ∈ splitSp text, l = w ++ " " := by
  refine wrapLoop_overflow m ((W : ℚ) * (8 / 10)) (splitSp text)
    (splitSp text) 0 "" (fun x hx => hx) ?_ ?_ l hl hlt
  · intro _
    exact ⟨rfl, splitSp_ne_nil text⟩
  · intro h
    exact absurd rfl h

theorem wrapLines_overflow_single_token_witness :
    ("x " ∈ wrapLines (fun s => ((5 * s.length : ℕ) : ℚ))
        (((5 : ℕ) : ℚ) * (8 / 10)) "x")
      ∧ ∃ w ∈ splitSp "x", "x " = w ++ " " := by
  have hb : (((5 : ℕ) : ℚ) * (8 / 10)) = 4 := by norm_num
  constructor
  · rw [hb]
    decide
  · exact wrapLines_overflow_single_token
      (fun s => ((5 * s.length : ℕ) : ℚ)) 5 "x" "x "
      (by rw [hb]; decide) (by rw [hb]; decide)

/-- C3 counterexample: with 5-units-per-character metrics and image width 5
(budget 4 = 0.8·5), the caption " x" produces the line " ", of measured
width 5 > 4, which contains no word at all — so it is not a single word
wider than the budget, refuting the claimed exception shape. -/
theorem wrap_overflow_line_without_word :
    ¬ (∀ l ∈ wrapLines (fun s => ((5 * s.length : ℕ) : ℚ))
          (((5 : ℕ) : ℚ) * (8 / 10)) " x",
        (fun s => ((5 * s.length : ℕ) : ℚ)) l ≤ ((5 : ℕ) : ℚ) * (8 / 10)
          ∨ ((wsWords l).length = 1
              ∧ ((5 : ℕ) : ℚ) * (8 / 10)
                  < (fun s => ((5 * s.length : ℕ) : ℚ)) ((wsWords l).getD 0 ""))) := by
  have hb : (((5 : ℕ) : ℚ) * (8 / 10)) = 4 := by norm_num
  rw [hb]
  decide

theorem wrapLoop_ne_nil (m : String → ℚ) (mw : ℚ) (ws : List String) :
    ∀ (n : ℕ) (line : String), wrapLoop m mw ws n line ≠ [] := by
  induction ws with
  | nil =>
    intro n line
    simp [wrapLoop]
  | cons w ws ih =>
    intro n line
    rw [wrapLoop]
    split
    · simp
    · exact ih _ _

theorem wrapLoop_foldl (m : String → ℚ) (mw : ℚ) (ws : List String) :
    ∀ (acc : List String) (line : String) (n : ℕ),
      (ws.foldl (wrapStep m mw) (acc, line, n)).1
          ++ [(ws.foldl (wrapStep m mw) (acc, line, n)).2.1]
        = acc ++ wrapLoop m mw ws n line := by
  induction ws with
  | nil =>
    intro acc line n
    simp [wrapLoop]
  | cons w ws ih =>
    intro acc line n
    rw [List.foldl_cons, wrapLoop, wrapStep]
    by_cases hc : m (line ++ w ++ " ") > mw ∧ 0 < n
    · rw [if_pos hc, if_pos hc, ih]
      simp
    · rw [if_neg hc, if_neg hc, ih]

/-- C1 (amended): the wrap is the left fold of the greedy step over the
tokens obtained by splitting the caption on the single space character
(empty tokens from leading or consecutive spaces included, other whitespace
kept inside tokens), closing the current line exactly when the prospective
line overflows the budget and the candidate is not the first token; the
final in-progress line is always emitted, so the wrap never returns an
empty line list and never splits a token. -/
theorem wrapLines_eq_fold (m : String → ℚ) (mw : ℚ) (text : String) :
    wrapLines m mw text = wrapLinesFold m mw text
      ∧ wrapLines m mw text ≠ [] := by
  constructor
  · have h := wrapLoop_foldl m mw (splitSp text) [] "" 0
    simp only [List.nil_append] at h
    exact h.symm
  · exact wrapLoop_ne_nil m mw (splitSp text) 0 ""

/-- C1 counterexample: the wrap implemented by the code differs from the
claimed wrap over whitespace-split words at concrete inputs.  With
5-units-per-character metrics: (a) for caption "aa\tbb" and width 25
(budget 20) the code keeps "aa\tbb" as one token while the claimed
algorithm splits at the tab and wraps; (b) for caption " a" and width 15
(budget 12) the code closes a line holding no word (the empty first token),
which the claimed break condition forbids. -/
theorem wrapLines_ne_wrapLinesSpec :
    wrapLines (fun s => ((5 * s.length : ℕ) : ℚ))
        (((25 : ℕ) : ℚ) * (8 / 10)) "aa\tbb"
      ≠ wrapLinesSpec (fun s => ((5 * s.length : ℕ) : ℚ))
          (((25 : ℕ) : ℚ) * (8 / 10)) "aa\tbb"
    ∧ wrapLines (fun s => ((5 * s.length : ℕ) : ℚ))
        (((15 : ℕ) : ℚ) * (8 / 10)) " a"
      ≠ wrapLinesSpec (fun s => ((5 * s.length : ℕ) : ℚ))
          (((15 : ℕ) : ℚ) * (8 / 10)) " a" := by
  have h1 : (((25 : ℕ) : ℚ) * (8 / 10)) = 20 := by norm_num
  have h2 : (((15 : ℕ) : ℚ) * (8 / 10)) = 12 := by norm_num
  rw [h1, h2]
  constructor <;> decide

/-- C9: the font size chosen for a decoded image of width W equals
max(20, W/20) in the same linear units as W: it is never below 20, is
monotone in the width, and equals W/20 (proportional growth) once
W ≥ 400. -/
theorem fontSize_spec (W : ℕ) :
    fontSizeQ W = max 20 ((W : ℚ) / 20)
      ∧ 20 ≤ fontSizeQ W
      ∧ (∀ V : ℕ, W ≤ V → fontSizeQ W ≤ fontSizeQ V)
      ∧ (400 ≤ W → fontSizeQ W = (W : ℚ) / 20) := by
  refine ⟨rfl, le_max_left _ _, ?_, ?_⟩
  · intro V hWV
    apply max_le_max le_rfl
    have h : (W : ℚ) ≤ (V : ℚ) := by exact_mod_cast hWV
    gcongr
  · intro h400
    rw [fontSizeQ]
    apply max_eq_right
    rw [le_div_iff₀ (by norm_num : (0 : ℚ) < 20)]
    have h : (400 : ℚ) ≤ (W : ℚ) := by exact_mod_cast h400
    linarith

theorem fontSize_spec_witness :
    20 ≤ fontSizeQ 300
      ∧ fontSizeQ 300 ≤ fontSizeQ 500
      ∧ fontSizeQ 500 = ((500 : ℕ) : ℚ) / 20 :=
  ⟨(fontSize_spec 300).2.1,
   (fontSize_spec 300).2.2.1 500 (by decide),
   (fontSize_spec 500).2.2.2 (by decide)⟩

/-- C4 (amended): the line height used to advance between drawn lines is
⌊fontSize⌋ · 1.2 — `parseInt(ctx.font)` reads back only the integer part of
the chosen font size — and it equals fontSize · 1.2 exactly when the chosen
font size is an integer (for instance whenever W ≤ 400 or 20 divides W). -/
theorem lineHeight_spec (W : ℕ) :
    lineHeightQ W = (fontPx W : ℚ) * (6 / 5)
      ∧ (lineHeightQ W = fontSizeQ W * (6 / 5)
          ↔ ∃ k : ℤ, fontSizeQ W = (k : ℚ)) := by
  refine ⟨rfl, ⟨?_, ?_⟩⟩
  · intro h
    rw [lineHeightQ] at h
    have h65 : ((6 : ℚ) / 5) ≠ 0 := by norm_num
    exact ⟨fontPx W, (mul_right_cancel₀ h65 h).symm⟩
  · rintro ⟨k, hk⟩
    rw [lineHeightQ, fontPx, hk, Int.floor_intCast]

theorem lineHeight_spec_witness :
    lineHeightQ 400 = fontSizeQ 400 * (6 / 5) :=
  (lineHeight_spec 400).2.mpr ⟨20, by norm_num [fontSizeQ]⟩

/-- C4 counterexample: at image width 410 the chosen font size is 20.5, but
the layout advances by parseInt of the font string times 1.2, i.e.
20 · 1.2 = 24, not 20.5 · 1.2 = 24.6. -/
theorem lineHeight_ne_fontSize_mul :
    lineHeightQ 410 ≠ fontSizeQ 410 * (6 / 5) := by
  have h1 : fontSizeQ 410 = 41 / 2 := by
    rw [fontSizeQ]
    rw [max_eq_right (by norm_num)]
    norm_num
  have h2 : lineHeightQ 410 = 24 := by
    rw [lineHeightQ, fontPx, h1]
    norm_num
  rw [h1, h2]
  norm_num

theorem drawLoop_getD (lh : ℚ) (ls : List String) :
    ∀ (y : ℚ) (i : ℕ), i < ls.length →
      ((drawLoop lh ls y).getD i ("", 0)).2 = y + i * lh := by
  induction ls with
  | nil =>
    intro y i h
    simp at h
  | cons l ls ih =>
    intro y i h
    cases i with
    | zero => simp [drawLoop]
    | succ j =>
      rw [drawLoop]
      simp only [List.getD_cons_succ]
      rw [ih (y + lh) j (by simpa using h)]
      push_cast
      ring

/-- C10: for a block of N drawn lines with line height lineHeight on a
canvas of height H, the first line is drawn at
y = H/2 − (N−1)·lineHeight/2 and each subsequent line's y exceeds the
previous one's by exactly lineHeight, centering the block vertically. -/
theorem drawLines_vertical_centering (H lh : ℚ) (lines : List String) :
    (0 < lines.length →
      ((drawLines H lh lines).getD 0 ("", 0)).2
        = H / 2 - ((lines.length : ℚ) - 1) * lh / 2)
      ∧ ∀ i : ℕ, i + 1 < lines.length →
          ((drawLines H lh lines).getD (i + 1) ("", 0)).2
            = ((drawLines H lh lines).getD i ("", 0)).2 + lh := by
  constructor
  · intro h
    rw [drawLines, drawLoop_getD lh lines _ 0 h]
    push_cast
    ring
  · intro i h
    rw [drawLines, drawLoop_getD lh lines _ (i + 1) h,
      drawLoop_getD lh lines _ i (Nat.lt_of_succ_lt h)]
    push_cast
    ring

theorem drawLines_vertical_centering_witness :
    ((drawLines 100 24 ["a", "b"]).getD 0 ("", 0)).2
        = 100 / 2 - (((["a", "b"] : List String).length : ℚ) - 1) * 24 / 2
      ∧ ((drawLines 100 24 ["a", "b"]).getD (0 + 1) ("", 0)).2
        = ((drawLines 100 24 ["a", "b"]).getD 0 ("", 0)).2 + 24 :=
  ⟨(drawLines_vertical_centering 100 24 ["a", "b"]).1 (by decide),
   (drawLines_vertical_centering 100 24 ["a", "b"]).2 0 (by decide)⟩

theorem dataUrlOf_ne_empty (b : String) : dataUrlOf b ≠ "" := by
  intro h
  have hd : ("data:image/png;base64,").data ++ b.data = [] := by
    have hc := congrArg String.data h
    rwa [dataUrlOf, data_append] at hc
  have hz : ("data:image/png;base64,").data = [] := (List.append_eq_nil.mp hd).1
  exact absurd hz (by decide)

theorem jsFilterBoolean_cons_none (l : List (Option String)) :
    jsFilterBoolean (none :: l) = jsFilterBoolean l := rfl

theorem jsFilterBoolean_cons_some (s : String) (hs : s ≠ "")
    (l : List (Option String)) :
    jsFilterBoolean (some s :: l) = s :: jsFilterBoolean l := by
  simp [jsFilterBoolean, List.filterMap_cons, hs]

theorem processPredictions_eq (overlay : String → String)
    (customText : String) (hov : ∀ s, overlay s ≠ "")
    (preds : List Prediction) :
    processPredictions overlay customText preds
      = (preds.filterMap (fun p => p.bytesBase64Encoded)).map
          (fun b => if jsTrim customText ≠ "" then overlay (dataUrlOf b)
                    else dataUrlOf b) := by
  induction preds with
  | nil => rfl
  | cons p preds ih =>
    rcases p with ⟨pb⟩
    rcases pb with _ | b
    · show jsFilterBoolean
          (none :: preds.map (handlePrediction overlay customText)) = _
      rw [jsFilterBoolean_cons_none]
      simpa [List.filterMap_cons] using ih
    · have hv : (if jsTrim customText ≠ "" then overlay (dataUrlOf b)
          else dataUrlOf b) ≠ "" := by
        split
        · exact hov _
        · exact dataUrlOf_ne_empty b
      simp only [processPredictions, List.map_cons, handlePrediction]
      rw [← apply_ite Option.some, jsFilterBoolean_cons_some _ hv]
      simp only [List.filterMap_cons, List.map_cons]
      exact congrArg (List.cons _) ih

/-- C5 (amended): the displayed output images are exactly the
payload-bearing predictions, in the service's order (the Nth output is
derived from the Nth retained prediction), each either a pass-through data
URL or the composite produced from it; entries without a payload are
dropped without failing the batch.  Consequently the output count equals
the number of payload-bearing predictions, never exceeds the number of
predictions the service returned, and is at most the requested 3 whenever
the service returns at most 3 predictions — but it is not clamped to 3 in
general.  (The hypothesis that the compositor yields a nonempty string
reflects that it resolves with a data URL or the original image URL.) -/
theorem processPredictions_spec (overlay : String → String)
    (customText : String) (hov : ∀ s, overlay s ≠ "")
    (preds : List Prediction) :
    processPredictions overlay customText preds
      = (preds.filterMap (fun p => p.bytesBase64Encoded)).map
          (fun b => if jsTrim customText ≠ "" then overlay (dataUrlOf b)
                    else dataUrlOf b)
      ∧ (processPredictions overlay customText preds).length ≤ preds.length
      ∧ (preds.length ≤ 3 →
          (processPredictions overlay customText preds).length ≤ 3) := by
  have heq := processPredictions_eq overlay customText hov preds
  refine ⟨heq, ?_, ?_⟩
  · rw [heq, List.length_map]
    exact List.length_filterMap_le _ _
  · intro h3
    rw [heq, List.length_map]
    exact le_trans (List.length_filterMap_le _ _) h3

theorem processPredictions_spec_witness :
    (processPredictions (fun _ => "out") "hi"
        [⟨some "A"⟩, ⟨none⟩, ⟨some "B"⟩]).length
      ≤ ([⟨some "A"⟩, ⟨none⟩, ⟨some "B"⟩] : List Prediction).length :=
  (processPredictions_spec (fun _ => "out") "hi"
    (fun _ => by show "out" ≠ ""; decide)
    [⟨some "A"⟩, ⟨none⟩, ⟨some "B"⟩]).2.1

/-- C5 counterexample: a service response carrying four decodable
predictions yields four output images — the code never clamps the output
to the requested count of 3. -/
theorem processPredictions_exceeds_requested :
    ¬ ((processPredictions (fun s => s) ""
        [⟨some "A"⟩, ⟨some "B"⟩, ⟨some "C"⟩, ⟨some "D"⟩]).length ≤ 3) := by
  decide

/-- C6: compositing with a caption that is empty or whitespace-only passes
the source image through unchanged: the prediction's data URL is returned
byte-for-byte and the overlay pipeline is never invoked (the result does
not depend on `overlay`). -/
theorem emptyCaption_passthrough (overlay : String → String)
    (customText : String) (h : jsTrim customText = "") (b : String) :
    handlePrediction overlay customText ⟨some b⟩ = some (dataUrlOf b) := by
  simp [handlePrediction, h]

theorem emptyCaption_passthrough_witness :
    jsTrim " \t " = ""
      ∧ handlePrediction (fun s => s ++ "!") " \t " ⟨some "QUJD"⟩
          = some (dataUrlOf "QUJD") :=
  ⟨by decide,
   emptyCaption_passthrough (fun s => s ++ "!") " \t " (by decide) "QUJD"⟩

/-- C7: when the image decode fails (the `img.onerror` path), the
compositor returns the original undecorated image unchanged for any
metrics, encoder, image and caption; the operation is total — it always
yields an image and never propagates the failure. -/
theorem decode_failure_passthrough (measure : String → ℚ)
    (encode : DecodedImage → List (String × ℚ) → String)
    (imageUrl text : String) :
    overlayTextOnImage measure encode none imageUrl text = imageUrl := rfl

/-- C8: the network request is issued exactly when both the trimmed prompt
and the trimmed API key are nonempty; otherwise a dismissible validation
notice — never the error banner — is produced before any network
activity. -/
theorem validation_guard (prompt apiKey : String) :
    ((jsTrim prompt = "" ∨ jsTrim apiKey = "") →
        ∃ msg, generateImagesGuard prompt apiKey
          = GenAction.validationNotice msg)
      ∧ (∀ msg, generateImagesGuard prompt apiKey ≠ GenAction.errorBanner msg)
      ∧ ((∃ u p, generateImagesGuard prompt apiKey = GenAction.sendRequest u p)
          ↔ jsTrim prompt ≠ "" ∧ jsTrim apiKey ≠ "") := by
  by_cases hp : jsTrim prompt = "" <;> by_cases hk : jsTrim apiKey = "" <;>
    simp [generateImagesGuard, hp, hk]

theorem validation_guard_witness :
    (∃ msg, generateImagesGuard "" "AIzaKey"
        = GenAction.validationNotice msg)
      ∧ (∃ msg, generateImagesGuard "a red balloon" ""
          = GenAction.validationNotice msg)
      ∧ ∃ u p, generateImagesGuard "a red balloon" "AIzaKey"
          = GenAction.sendRequest u p :=
  ⟨(validation_guard "" "AIzaKey").1 (Or.inl (by decide)),
   (validation_guard "a red balloon" "").1 (Or.inr (by decide)),
   ((validation_guard "a red balloon" "AIzaKey").2.2).mpr
     ⟨by decide, by decide⟩⟩

end HeyPicture
